import Mathlib

/-!
Verification development for two stress-ng source files:
`src/stress-memcpy.c` (memory-copy stressor) and `src/core-affinity.c`
(CPU affinity parsing, binding and migration).

Memory is modelled as a total function from byte addresses to byte values
(`Mem := ℕ → ℕ`); pointers are byte offsets into this flat memory.  The
three working buffers of the memcpy stressor live at offsets `str1 = 0`,
`str2 = MEMCPY_MEMSIZE`, `str3 = 2 * MEMCPY_MEMSIZE`, exactly as the
source carves one contiguous allocation into three slices.
-/

/-- Flat byte memory: address to byte value. -/
def Mem : Type := ℕ → ℕ

instance : Inhabited Mem := ⟨fun _ => 0⟩

/-- One write to flat memory. -/
def memWrite (m : Mem) (a v : ℕ) : Mem := Function.update m a v

/-- Forward byte-copy loop of `TEST_NAIVE_MEMCPY` in `src/stress-memcpy.c`
(lines 90-100): `for (i = 0; i < n; i++) *(cdest++) = *(csrc++);`.
The recursion peels off the first executed write and advances both
pointers, mirroring the pointer increments of the C loop. -/
def copy_fwd (dest src : ℕ) : ℕ → Mem → Mem
  | 0, m => m
  | n + 1, m => copy_fwd (dest + 1) (src + 1) n (memWrite m dest (m src))

/-- Reverse byte-copy loop of `TEST_NAIVE_MEMMOVE` in `src/stress-memcpy.c`
(lines 118-124): pointers start at `dest + n`, `src + n` and are
predecremented, so the first executed write is at index `n - 1`.  The
recursion peels off that first write (index `n`) and recurses on the
count. -/
def copy_bwd (dest src : ℕ) : ℕ → Mem → Mem
  | 0, m => m
  | n + 1, m => copy_bwd dest src n (memWrite m (dest + n) (m (src + n)))

/-- `TEST_NAIVE_MEMCPY` (src/stress-memcpy.c lines 90-102): forward byte
loop; returns the destination pointer. -/
def test_naive_memcpy (m : Mem) (dest src n : ℕ) : Mem × ℕ :=
  (copy_fwd dest src n m, dest)

/-- `TEST_NAIVE_MEMMOVE` (src/stress-memcpy.c lines 108-128): direction
chosen by pointer compare, `dest < src` forward, otherwise reverse;
returns the destination pointer. -/
def test_naive_memmove (m : Mem) (dest src n : ℕ) : Mem × ℕ :=
  (if dest < src then copy_fwd dest src n m else copy_bwd dest src n m, dest)

/-- `MEMCPY_MEMSIZE` from src/stress-memcpy.c line 24. -/
def MEMCPY_MEMSIZE : ℕ := 2048

/-- `MEMCPY_LOOPS` from src/stress-memcpy.c line 25. -/
def MEMCPY_LOOPS : ℕ := 1024

/-- Offset of buffer `str1` (src/stress-memcpy.c line 326: `str1 = buf`). -/
def str1 : ℕ := 0

/-- Offset of buffer `str2` (line 327: `str2 = str1 + MEMCPY_MEMSIZE`). -/
def str2 : ℕ := MEMCPY_MEMSIZE

/-- Offset of buffer `str3` (line 328: `str3 = str2 + MEMCPY_MEMSIZE`). -/
def str3 : ℕ := 2 * MEMCPY_MEMSIZE

/-- Result of C `memcmp(p, q, n) != 0` on flat memory: true iff some byte
in the first `n` differs. -/
def memcmp_ne (m : Mem) (p q n : ℕ) : Bool :=
  (List.range n).any fun i => m (p + i) != m (q + i)

/-- The two kinds of `pr_fail` diagnostics the checking wrappers can emit
(src/stress-memcpy.c lines 59 and 62): content mismatch and
return-pointer mismatch. -/
inductive CheckFailure
  | content
  | retPtr
deriving DecidableEq

/-- `memcpy_check_func` (src/stress-memcpy.c lines 54-65): call the
wrapped primitive, log a failure if the copied contents differ from the
source and another if the returned pointer is not `dest`, then return the
primitive's own result.  The log is returned explicitly since the C code
only hands it to `pr_fail`. -/
def memcpy_check_func (f : Mem → ℕ → ℕ → ℕ → Mem × ℕ)
    (m : Mem) (dest src n : ℕ) : (Mem × ℕ) × List CheckFailure :=
  let r := f m dest src n
  let l1 := if memcmp_ne r.1 dest src n then [CheckFailure.content] else []
  let l2 := if r.2 ≠ dest then [CheckFailure.retPtr] else []
  (r, l1 ++ l2)

/-- `memcpy_no_check_func` (src/stress-memcpy.c lines 67-70): transparent
forwarder. -/
def memcpy_no_check_func (f : Mem → ℕ → ℕ → ℕ → Mem × ℕ)
    (m : Mem) (dest src n : ℕ) : Mem × ℕ :=
  f m dest src n

/-- `memmove_check_func` (src/stress-memcpy.c lines 72-83): same structure
as `memcpy_check_func`, different diagnostic text. -/
def memmove_check_func (f : Mem → ℕ → ℕ → ℕ → Mem × ℕ)
    (m : Mem) (dest src n : ℕ) : (Mem × ℕ) × List CheckFailure :=
  let r := f m dest src n
  let l1 := if memcmp_ne r.1 dest src n then [CheckFailure.content] else []
  let l2 := if r.2 ≠ dest then [CheckFailure.retPtr] else []
  (r, l1 ++ l2)

/-- `memmove_no_check_func` (src/stress-memcpy.c lines 85-88). -/
def memmove_no_check_func (f : Mem → ℕ → ℕ → ℕ → Mem × ℕ)
    (m : Mem) (dest src n : ℕ) : Mem × ℕ :=
  f m dest src n

/-- Modelled from the spec: the platform libc `memcpy` is external to the
repository; per §4.2 it is the platform byte-copy primitive.  On the
non-overlapping arguments the pattern feeds it, a forward byte copy
realises its contract; it returns `dest`. -/
def libc_memcpy (m : Mem) (dest src n : ℕ) : Mem × ℕ :=
  (copy_fwd dest src n m, dest)

/-- Modelled from the spec: the platform libc `memmove` is external to
the repository; per the classical move contract, `dest[0..n)` receives
the pre-state of `src[0..n)` for any overlap, realised by choosing the
copy direction; it returns `dest`. -/
def libc_memmove (m : Mem) (dest src n : ℕ) : Mem × ℕ :=
  (if dest < src then copy_fwd dest src n m else copy_bwd dest src n m, dest)

/-- One iteration of the eight-step inner pattern (src/stress-memcpy.c,
body of the loop in `STRESS_MEMCPY_NAIVE` lines 220-229 and identically
in `stress_memcpy_libc` lines 142-151), parametric in the copy and move
primitives.  The `memcpy_check`/`memmove_check` wrappers do not alter
memory or the returned pointer (see the C10 development below), so the
pattern applies the primitives directly. -/
def memcpy_pattern_step (cpy mov : Mem → ℕ → ℕ → ℕ → Mem × ℕ) (m : Mem) : Mem :=
  let m1 := (cpy m str3 str2 MEMCPY_MEMSIZE).1
  let m2 := (cpy m1 str2 str3 (MEMCPY_MEMSIZE / 2)).1
  let m3 := (mov m2 str3 (str3 + 64) (MEMCPY_MEMSIZE - 64)).1
  let m4 := (cpy m3 str1 str2 MEMCPY_MEMSIZE).1
  let m5 := (mov m4 (str3 + 64) str3 (MEMCPY_MEMSIZE - 64)).1
  let m6 := (cpy m5 str3 str1 MEMCPY_MEMSIZE).1
  let m7 := (mov m6 (str3 + 1) str3 (MEMCPY_MEMSIZE - 1)).1
  (mov m7 str3 (str3 + 1) (MEMCPY_MEMSIZE - 1)).1

/-- `stress_memcpy_naive` (src/stress-memcpy.c line 232, expanded from
`STRESS_MEMCPY_NAIVE`): the inner pattern with the naive primitives,
repeated `MEMCPY_LOOPS` times. -/
def stress_memcpy_naive (m : Mem) : Mem :=
  (memcpy_pattern_step test_naive_memcpy test_naive_memmove)^[MEMCPY_LOOPS] m

/-- `stress_memcpy_libc` (src/stress-memcpy.c lines 134-152): the inner
pattern with the libc primitives, repeated `MEMCPY_LOOPS` times. -/
def stress_memcpy_libc (m : Mem) : Mem :=
  (memcpy_pattern_step libc_memcpy libc_memmove)^[MEMCPY_LOOPS] m

/-- One pattern iteration of the libc fallback branch of
`stress_memcpy_builtin` (src/stress-memcpy.c lines 197-206).  The source
text at lines 201 and 203 reads `memcpy(str1, b, ...)` and
`memcpy(b, str1, ...)` with an identifier `b` that is declared nowhere in
the file; the upstream pattern uses `str2` and `str3` there.  `b` is
modelled as the base offset of whatever object that name would denote,
passed as a parameter. -/
def stress_memcpy_builtin_fallback_step (b : ℕ) (m : Mem) : Mem :=
  let m1 := (libc_memcpy m str3 str2 MEMCPY_MEMSIZE).1
  let m2 := (libc_memcpy m1 str2 str3 (MEMCPY_MEMSIZE / 2)).1
  let m3 := (libc_memmove m2 str3 (str3 + 64) (MEMCPY_MEMSIZE - 64)).1
  let m4 := (libc_memcpy m3 str1 b MEMCPY_MEMSIZE).1
  let m5 := (libc_memmove m4 (str3 + 64) str3 (MEMCPY_MEMSIZE - 64)).1
  let m6 := (libc_memcpy m5 b str1 MEMCPY_MEMSIZE).1
  let m7 := (libc_memmove m6 (str3 + 1) str3 (MEMCPY_MEMSIZE - 1)).1
  (libc_memmove m7 str3 (str3 + 1) (MEMCPY_MEMSIZE - 1)).1

/-- The libc fallback branch of `stress_memcpy_builtin`
(src/stress-memcpy.c lines 188-207) as a whole method invocation. -/
def stress_memcpy_builtin_fallback (b : ℕ) (m : Mem) : Mem :=
  (stress_memcpy_builtin_fallback_step b)^[MEMCPY_LOOPS] m

/-- The method names of the memcpy stressor table
(src/stress-memcpy.c lines 269-279), excluding the dispatcher `all`. -/
inductive MemcpyMethod
  | libc
  | builtin
  | naive
  | naive_o0
  | naive_o1
  | naive_o2
  | naive_o3
deriving DecidableEq

/-- `stress_memcpy_all` (src/stress-memcpy.c lines 238-267): the static
cursor `whence` selects the sub-method; cases 0-3 increment the cursor,
the default case dispatches `naive_o3` and resets it to 0.  Returns the
dispatched method and the new cursor value. -/
def stress_memcpy_all_step : ℤ → MemcpyMethod × ℤ
  | 0 => (MemcpyMethod.libc, 1)
  | 1 => (MemcpyMethod.builtin, 2)
  | 2 => (MemcpyMethod.naive, 3)
  | 3 => (MemcpyMethod.naive_o0, 4)
  | _ => (MemcpyMethod.naive_o3, 0)

/-- The list of methods dispatched by `k` successive invocations of
`stress_memcpy_all` starting from cursor value `w`. -/
def stress_memcpy_all_trace : ℕ → ℤ → List MemcpyMethod
  | 0, _ => []
  | k + 1, w =>
    (stress_memcpy_all_step w).1 :: stress_memcpy_all_trace k (stress_memcpy_all_step w).2

/-- C `isspace` for the default locale: space, tab, newline, vertical
tab, form feed, carriage return. -/
def isCSpace (c : Char) : Bool :=
  c.toNat = 32 || c.toNat = 9 || c.toNat = 10 || c.toNat = 11 || c.toNat = 12 || c.toNat = 13

/-- Value of a list of decimal digit characters, most significant
first. -/
def digitsVal (ds : List Char) : ℕ :=
  ds.foldl (fun a c => 10 * a + (c.toNat - 48)) 0

/-- C `isdigit` in the default locale: code points 48 to 57. -/
def isDigitChar (c : Char) : Bool :=
  48 ≤ c.toNat && c.toNat ≤ 57

/-- Digit-reading tail of the C `sscanf(str, "%d", ...)` conversion:
after the optional sign, read the maximal run of decimal digits; fail if
it is empty. -/
def sscanf_digits (s : List Char) (neg : Bool) : Option ℤ :=
  let ds := s.takeWhile isDigitChar
  if ds.isEmpty then none
  else some (if neg then -(digitsVal ds : ℤ) else (digitsVal ds : ℤ))

/-- Modelled from the spec and the C standard: `sscanf(str, "%d", &val)`
(used by `stress_parse_cpu`, src/core-affinity.c line 59) skips leading
white space, accepts an optional sign, then converts the maximal run of
decimal digits; it reports a conversion count of 1 exactly when at least
one digit was read, and ignores any trailing characters. -/
def sscanf_sign : List Char → Option ℤ
  | [] => none
  | c :: r =>
    if c = '-' then sscanf_digits r true
    else if c = '+' then sscanf_digits r false
    else sscanf_digits (c :: r) false

/-- See the doc comment on `sscanf_sign` use: skip leading white space,
then handle the optional sign and the digits. -/
def sscanf_d (s : List Char) : Option ℤ :=
  sscanf_sign (s.dropWhile isCSpace)

/-- `stress_parse_cpu` (src/core-affinity.c lines 55-64): `sscanf` the
token with `"%d"`; on conversion failure print a diagnostic naming the
token and `_exit(EXIT_FAILURE)` (modelled by `none`). -/
def stress_parse_cpu (s : List Char) : Option ℤ :=
  sscanf_d s

/-- `strstr(token, "-")` followed by `tmpptr++`
(src/core-affinity.c lines 88, 92): the characters after the first
`'-'`, if any. -/
def dashSuffix : List Char → Option (List Char)
  | [] => none
  | c :: r => if c = '-' then some r else dashSuffix r

/-- Split a character list at every comma, keeping empty fields. -/
def splitOnComma (s : List Char) : List (List Char) :=
  s.foldr
    (fun c acc =>
      if c = ',' then [] :: acc
      else
        match acc with
        | [] => [[c]]
        | t :: ts => (c :: t) :: ts)
    [[]]

/-- The token sequence produced by the `strtok(ptr, ",")` loop
(src/core-affinity.c line 86): `strtok` returns the maximal nonempty
runs between commas, i.e. the comma-split fields with empty fields
dropped. -/
def strtokSplit (s : List Char) : List (List Char) :=
  (splitOnComma s).filter (fun t => !t.isEmpty)

/-- `stress_check_cpu_affinity_range` (src/core-affinity.c lines 37-47)
as a predicate: the cpu passes iff it is nonnegative and, unless
`max_cpus = -1`, below `max_cpus`; otherwise the C function exits. -/
def stress_check_cpu_affinity_range (max_cpus cpu : ℤ) : Bool :=
  decide (0 ≤ cpu) && (decide (max_cpus = -1) || decide (cpu < max_cpus))

/-- Per-token body of the parsing loop in `stress_set_cpu_affinity`
(src/core-affinity.c lines 86-108): parse the token as `lo` (and `hi`);
if it contains a `'-'`, reject a dangling dash, parse the suffix as `hi`
and reject `hi < lo`.  `none` models `_exit(EXIT_FAILURE)`. -/
def parseToken (tok : List Char) : Option (ℤ × ℤ) :=
  match stress_parse_cpu tok with
  | none => none
  | some lo =>
    match dashSuffix tok with
    | none => some (lo, lo)
    | some rest =>
      if rest.isEmpty then none
      else
        match stress_parse_cpu rest with
        | none => none
        | some hi => if hi < lo then none else some (lo, hi)

/-- The `for (i = lo; i <= hi; i++) CPU_SET(i, &set)` loop of
`stress_set_cpu_affinity` (src/core-affinity.c lines 112-113) as the set
of visited values. -/
def cpuSetRange (lo hi : ℤ) : Finset ℤ :=
  ((List.range (hi + 1 - lo).toNat).map (fun k : ℕ => lo + (k : ℤ))).toFinset

/-- The token loop of `stress_set_cpu_affinity`
(src/core-affinity.c lines 86-114), accumulating the `CPU_SET` bits:
each accepted token contributes `{lo..hi}` after both bounds pass the
range check. -/
def affinityLoop (max_cpus : ℤ) : List (List Char) → Finset ℤ → Option (Finset ℤ)
  | [], s => some s
  | tok :: rest, s =>
    match parseToken tok with
    | none => none
    | some (lo, hi) =>
      if stress_check_cpu_affinity_range max_cpus lo &&
          stress_check_cpu_affinity_range max_cpus hi then
        affinityLoop max_cpus rest (s ∪ cpuSetRange lo hi)
      else none

/-- `stress_set_cpu_affinity` (src/core-affinity.c lines 72-125) up to
the kernel call: `some S` means the parse loop completed and the mask
`S` is handed to `sched_setaffinity`; `none` models `_exit(EXIT_FAILURE)`
during parsing or range checking. -/
def stress_set_cpu_affinity (max_cpus : ℤ) (arg : List Char) : Option (Finset ℤ) :=
  affinityLoop max_cpus (strtokSplit arg) ∅

/-- Abstract syntax of the §4.1 grammar: an item is a single CPU index
or a closed range. -/
inductive CpuItem
  | single (n : ℕ)
  | range (lo hi : ℕ)
deriving DecidableEq

/-- Decimal rendering with explicit fuel (the fuel only needs to exceed
the number of digits; `natToDec` supplies `n + 1`). -/
def natToDecAux : ℕ → ℕ → List Char
  | 0, _ => []
  | fuel + 1, n =>
    if n < 10 then [Char.ofNat (48 + n)]
    else natToDecAux fuel (n / 10) ++ [Char.ofNat (48 + n % 10)]

/-- Decimal rendering of a natural number, most significant digit
first. -/
def natToDec (n : ℕ) : List Char :=
  natToDecAux (n + 1) n

/-- Concrete string derived from one grammar item. -/
def itemChars : CpuItem → List Char
  | CpuItem.single n => natToDec n
  | CpuItem.range lo hi => natToDec lo ++ '-' :: natToDec hi

/-- Concrete string derived from a grammar item list: the items joined
by commas. -/
def listChars : List CpuItem → List Char
  | [] => []
  | [it] => itemChars it
  | it :: rest => itemChars it ++ ',' :: listChars rest

/-- The set of CPUs an item denotes. -/
def itemSet : CpuItem → Finset ℤ
  | CpuItem.single n => {(n : ℤ)}
  | CpuItem.range lo hi => Finset.Icc (lo : ℤ) (hi : ℤ)

/-- The set-theoretic union of the item sets of a list. -/
def itemsUnion (items : List CpuItem) : Finset ℤ :=
  items.foldr (fun it t => itemSet it ∪ t) ∅

/-- Side conditions of claim C2 on an item: indices lie in
`[0, max_cpus)` and ranges are ordered. -/
def itemOK (max_cpus : ℤ) : CpuItem → Prop
  | CpuItem.single n => (n : ℤ) < max_cpus
  | CpuItem.range lo hi => lo ≤ hi ∧ (hi : ℤ) < max_cpus

instance : ∀ (max_cpus : ℤ) (it : CpuItem), Decidable (itemOK max_cpus it) := by
  intro max_cpus it
  cases it with
  | single n => exact inferInstanceAs (Decidable ((n : ℤ) < max_cpus))
  | range lo hi => exact inferInstanceAs (Decidable (lo ≤ hi ∧ (hi : ℤ) < max_cpus))

/-- The working mask chosen by `stress_change_cpu`
(src/core-affinity.c lines 143-148): the cached binding state if it has
any bit set, otherwise the mask queried from the kernel. -/
def change_cpu_workmask (cached kernel : Finset ℕ) : Finset ℕ :=
  if cached.card = 0 then kernel else cached

/-- The mask adjustment of `stress_change_cpu`
(src/core-affinity.c lines 150-158): for a nonnegative input, clear the
`from_cpu` bit exactly when the mask has more than one bit set; for a
negative input leave the mask alone.  The boolean records whether
`CPU_CLR` was executed. -/
def change_cpu_mask_update (mask : Finset ℕ) (old_cpu : ℤ) : Finset ℕ × Bool :=
  if old_cpu < 0 then (mask, false)
  else if 1 < mask.card then (mask.erase old_cpu.toNat, true)
  else (mask, false)

/-- The environment `stress_change_cpu` reads: the `change-cpu` flag,
the cached affinity mask, the result of `sched_getaffinity` (`none` on
failure), the two `stress_get_cpu` query results (before and after the
move) and whether `sched_setaffinity` succeeds. -/
structure ChangeCpuEnv where
  change_cpu_flag : Bool
  cached_mask : Finset ℕ
  kernel_mask : Option (Finset ℕ)
  cur_cpu : ℕ
  moved_cpu : ℕ
  setaffinity_ok : Finset ℕ → Bool

/-- `stress_change_cpu` (src/core-affinity.c lines 133-169): return the
input unchanged when the flag is off or the kernel mask query fails;
otherwise compute `from_cpu` (the input, or the queried current CPU for
a negative input), adjust the mask, and return the freshly queried CPU
on `sched_setaffinity` success or `from_cpu` on failure. -/
def stress_change_cpu (env : ChangeCpuEnv) (old_cpu : ℤ) : ℤ :=
  if env.change_cpu_flag = false then old_cpu
  else
    match (if env.cached_mask.card = 0 then env.kernel_mask else some env.cached_mask) with
    | none => old_cpu
    | some mask0 =>
      let from_cpu : ℤ := if old_cpu < 0 then (env.cur_cpu : ℤ) else old_cpu
      let mask1 := (change_cpu_mask_update mask0 old_cpu).1
      if env.setaffinity_ok mask1 then (env.moved_cpu : ℤ) else from_cpu

lemma copy_fwd_frame : ∀ (n dest src : ℕ) (m : Mem) (x : ℕ),
    (x < dest ∨ dest + n ≤ x) → copy_fwd dest src n m x = m x := by
  intro n
  induction n with
  | zero => intro dest src m x _; rfl
  | succ n ih =>
    intro dest src m x hx
    show copy_fwd (dest + 1) (src + 1) n (memWrite m dest (m src)) x = m x
    rw [ih (dest + 1) (src + 1) (memWrite m dest (m src)) x (by omega)]
    exact Function.update_noteq (by omega) _ m

lemma copy_fwd_get : ∀ (n dest src : ℕ) (m : Mem),
    (dest < src ∨ src + n ≤ dest) → ∀ i, i < n →
    copy_fwd dest src n m (dest + i) = m (src + i) := by
  intro n
  induction n with
  | zero => intro _ _ _ _ i hi; omega
  | succ n ih =>
    intro dest src m hds i hi
    show copy_fwd (dest + 1) (src + 1) n (memWrite m dest (m src)) (dest + i) = m (src + i)
    cases i with
    | zero =>
      rw [copy_fwd_frame n (dest + 1) (src + 1) _ (dest + 0) (by omega)]
      show memWrite m dest (m src) dest = m (src + 0)
      rw [memWrite, Function.update_same]
      norm_num
    | succ j =>
      have hpos : dest + (j + 1) = (dest + 1) + j := by omega
      rw [hpos, ih (dest + 1) (src + 1) (memWrite m dest (m src)) (by omega) j (by omega)]
      have hne : (src + 1) + j ≠ dest := by omega
      rw [memWrite, Function.update_noteq hne]
      congr 1
      omega

lemma copy_bwd_frame : ∀ (n dest src : ℕ) (m : Mem) (x : ℕ),
    (x < dest ∨ dest + n ≤ x) → copy_bwd dest src n m x = m x := by
  intro n
  induction n with
  | zero => intro dest src m x _; rfl
  | succ n ih =>
    intro dest src m x hx
    show copy_bwd dest src n (memWrite m (dest + n) (m (src + n))) x = m x
    rw [ih dest src _ x (by omega)]
    exact Function.update_noteq (by omega) _ m

lemma copy_bwd_get : ∀ (n dest src : ℕ) (m : Mem), src ≤ dest → ∀ i, i < n →
    copy_bwd dest src n m (dest + i) = m (src + i) := by
  intro n
  induction n with
  | zero => intro _ _ _ _ i hi; omega
  | succ n ih =>
    intro dest src m hds i hi
    show copy_bwd dest src n (memWrite m (dest + n) (m (src + n))) (dest + i) = m (src + i)
    by_cases heq : i = n
    · subst heq
      rw [copy_bwd_frame i dest src _ (dest + i) (by omega)]
      rw [memWrite, Function.update_same]
    · have hlt : i < n := by omega
      rw [ih dest src _ hds i hlt]
      have hne : src + i ≠ dest + n := by omega
      rw [memWrite, Function.update_noteq hne]

/-- C10: for every wrapped primitive `f` and arguments, the checking
wrappers are observationally equivalent to the non-checking wrappers on
data: memory and returned pointer are exactly those produced by `f`
itself (failed comparisons only extend the log), and the propagated
return value is the one `f` returned, not `dest`. -/
theorem memcpy_check_func_transparent :
    ∀ (f : Mem → ℕ → ℕ → ℕ → Mem × ℕ) (m : Mem) (dest src n : ℕ),
      (memcpy_check_func f m dest src n).1 = memcpy_no_check_func f m dest src n ∧
      (memmove_check_func f m dest src n).1 = memmove_no_check_func f m dest src n ∧
      (memcpy_check_func f m dest src n).1.2 = (f m dest src n).2 ∧
      (memmove_check_func f m dest src n).1.2 = (f m dest src n).2 := by
  intro f m dest src n
  exact ⟨rfl, rfl, rfl, rfl⟩

/-- C4: from the initial cursor 0, five invocations of `all` dispatch
libc, builtin, naive, naive_o0, naive_o3 in that order and the sixth
wraps to libc; no cursor value ever dispatches naive_o1 or naive_o2. -/
theorem stress_memcpy_all_round_robin :
    stress_memcpy_all_trace 6 0 =
      [MemcpyMethod.libc, MemcpyMethod.builtin, MemcpyMethod.naive,
       MemcpyMethod.naive_o0, MemcpyMethod.naive_o3, MemcpyMethod.libc] ∧
    ∀ w : ℤ, (stress_memcpy_all_step w).1 ≠ MemcpyMethod.naive_o1 ∧
      (stress_memcpy_all_step w).1 ≠ MemcpyMethod.naive_o2 := by
  constructor
  · rfl
  · intro w
    unfold stress_memcpy_all_step
    split <;> exact ⟨by decide, by decide⟩

/-- C3: the naive move satisfies the classical memmove contract for any
overlap direction: the post-state of `dest[0..n)` is the pre-state of
`src[0..n)`, and both the naive move and the naive copy return the
destination pointer. -/
theorem test_naive_memmove_contract :
    ∀ (m : Mem) (dest src n i : ℕ), i < n →
      (test_naive_memmove m dest src n).1 (dest + i) = m (src + i) ∧
      (test_naive_memmove m dest src n).2 = dest ∧
      (test_naive_memcpy m dest src n).2 = dest := by
  intro m dest src n i hi
  refine ⟨?_, rfl, rfl⟩
  show (if dest < src then copy_fwd dest src n m else copy_bwd dest src n m) (dest + i)
      = m (src + i)
  by_cases h : dest < src
  · rw [if_pos h]
    exact copy_fwd_get n dest src m (Or.inl h) i hi
  · rw [if_neg h]
    exact copy_bwd_get n dest src m (by omega) i hi

/-- Concrete instance of the naive-move contract: moving three bytes one
position up inside an overlapping region. -/
theorem test_naive_memmove_contract_witness :
    0 < 3 ∧ (test_naive_memmove (fun j => j) 1 0 3).1 (1 + 0) = (fun j : ℕ => j) (0 + 0) :=
  ⟨by norm_num, (test_naive_memmove_contract (fun j => j) 1 0 3 0 (by norm_num)).1⟩

/-- C5: in the migrate operation the `from_cpu` bit is cleared exactly
when the input is nonnegative and the working mask (cached state, or the
kernel query result when the cache is empty) has more than one bit set;
hence a nonempty working mask is never emptied before being applied. -/
theorem change_cpu_mask_invariant :
    ∀ (cached kernel : Finset ℕ) (old_cpu : ℤ),
      (0 ≤ old_cpu →
        ((change_cpu_mask_update (change_cpu_workmask cached kernel) old_cpu).2 = true ↔
          1 < (change_cpu_workmask cached kernel).card)) ∧
      (old_cpu < 0 →
        (change_cpu_mask_update (change_cpu_workmask cached kernel) old_cpu).2 = false) ∧
      ((change_cpu_workmask cached kernel).Nonempty →
        ((change_cpu_mask_update (change_cpu_workmask cached kernel) old_cpu).1).Nonempty) := by
  intro cached kernel old
  set mask := change_cpu_workmask cached kernel with hm
  unfold change_cpu_mask_update
  refine ⟨?_, ?_, ?_⟩
  · intro h0
    rw [if_neg (by omega)]
    by_cases hc : 1 < mask.card
    · rw [if_pos hc]; simpa using hc
    · rw [if_neg hc]; simpa using hc
  · intro hneg
    rw [if_pos hneg]
  · intro hne
    by_cases hneg : old < 0
    · rw [if_pos hneg]; exact hne
    · rw [if_neg hneg]
      by_cases hc : 1 < mask.card
      · rw [if_pos hc]
        obtain ⟨a, ha, b, hb, hab⟩ := Finset.one_lt_card.mp hc
        by_cases hax : a = old.toNat
        · exact ⟨b, Finset.mem_erase.mpr ⟨fun hbx => hab (hax.trans hbx.symm), hb⟩⟩
        · exact ⟨a, Finset.mem_erase.mpr ⟨hax, ha⟩⟩
      · rw [if_neg hc]; exact hne

/-- Concrete instance of the C5 invariant at mask `{0, 1}`. -/
theorem change_cpu_mask_invariant_witness :
    (change_cpu_mask_update (change_cpu_workmask {0, 1} ∅) 0).2 = true ∧
    (change_cpu_mask_update (change_cpu_workmask {0, 1} ∅) (-1)).2 = false ∧
    ((change_cpu_mask_update (change_cpu_workmask {0, 1} ∅) 0).1).Nonempty :=
  ⟨((change_cpu_mask_invariant {0, 1} ∅ 0).1 (by norm_num)).mpr (by decide),
   (change_cpu_mask_invariant {0, 1} ∅ (-1)).2.1 (by norm_num),
   (change_cpu_mask_invariant {0, 1} ∅ 0).2.2 ⟨0, by decide⟩⟩

/-- C8: once the migrate operation has a working mask, its return value
is the freshly queried CPU when `sched_setaffinity` succeeds and
`from_cpu` (the nonnegative input, or the queried current CPU for a
negative input) when it fails. -/
theorem stress_change_cpu_return :
    ∀ (env : ChangeCpuEnv) (old_cpu : ℤ) (mask0 : Finset ℕ),
      env.change_cpu_flag = true →
      (if env.cached_mask.card = 0 then env.kernel_mask else some env.cached_mask) =
        some mask0 →
      (env.setaffinity_ok ((change_cpu_mask_update mask0 old_cpu).1) = false →
        stress_change_cpu env old_cpu = if old_cpu < 0 then (env.cur_cpu : ℤ) else old_cpu) ∧
      (env.setaffinity_ok ((change_cpu_mask_update mask0 old_cpu).1) = true →
        stress_change_cpu env old_cpu = (env.moved_cpu : ℤ)) := by
  intro env old mask0 hflag hmask
  constructor
  · intro hfail
    simp only [stress_change_cpu, hflag, hmask, hfail]
    simp
  · intro hok
    simp only [stress_change_cpu, hflag, hmask, hok]
    simp

/-- Concrete instance of the C8 return-value contract: successful
migration returns the freshly queried CPU. -/
theorem stress_change_cpu_return_witness :
    stress_change_cpu ⟨true, {0, 1}, none, 5, 7, fun _ => true⟩ 3 = (7 : ℤ) :=
  (stress_change_cpu_return ⟨true, {0, 1}, none, 5, 7, fun _ => true⟩ 3 {0, 1}
    rfl (by decide)).2 rfl

lemma naive_pattern_step_eq (m : Mem) :
    memcpy_pattern_step test_naive_memcpy test_naive_memmove m =
      copy_fwd 4096 4097 2047
        (copy_bwd 4097 4096 2047
          (copy_fwd 4096 0 2048
            (copy_bwd 4160 4096 1984
              (copy_fwd 0 2048 2048
                (copy_fwd 4096 4160 1984
                  (copy_fwd 2048 4096 1024
                    (copy_fwd 4096 2048 2048 m))))))) := by
  have c1 : str3 < str3 + 64 := by omega
  have c2 : ¬(str3 + 64 < str3) := by omega
  have c3 : ¬(str3 + 1 < str3) := by omega
  have c4 : str3 < str3 + 1 := by omega
  unfold memcpy_pattern_step
  dsimp only [test_naive_memcpy, test_naive_memmove]
  rw [if_pos c1, if_neg c2, if_neg c3, if_pos c4]
  norm_num [str1, str2, str3, MEMCPY_MEMSIZE]

lemma naive_pattern_step_spec (m : Mem) :
    (∀ i, i < 2048 →
      memcpy_pattern_step test_naive_memcpy test_naive_memmove m i = m (2048 + i)) ∧
    (∀ i, i < 2048 →
      memcpy_pattern_step test_naive_memcpy test_naive_memmove m (2048 + i) = m (2048 + i)) ∧
    (∀ i, i < 2047 →
      memcpy_pattern_step test_naive_memcpy test_naive_memmove m (4096 + i) = m (2048 + i)) ∧
    memcpy_pattern_step test_naive_memcpy test_naive_memmove m 6143 = m 4094 := by
  rw [naive_pattern_step_eq m]
  set m1 := copy_fwd 4096 2048 2048 m with hm1
  set m2 := copy_fwd 2048 4096 1024 m1 with hm2
  set m3 := copy_fwd 4096 4160 1984 m2 with hm3
  set m4 := copy_fwd 0 2048 2048 m3 with hm4
  set m5 := copy_bwd 4160 4096 1984 m4 with hm5
  set m6 := copy_fwd 4096 0 2048 m5 with hm6
  set m7 := copy_bwd 4097 4096 2047 m6 with hm7
  have h1c : ∀ i, i < 2048 → m1 (4096 + i) = m (2048 + i) := fun i hi =>
    copy_fwd_get 2048 4096 2048 m (Or.inr (by norm_num)) i hi
  have h1f : ∀ x, x < 4096 → m1 x = m x := fun x hx =>
    copy_fwd_frame 2048 4096 2048 m x (Or.inl hx)
  have h2b : ∀ i, i < 2048 → m2 (2048 + i) = m (2048 + i) := by
    intro i hi
    rw [hm2]
    by_cases h : i < 1024
    · rw [copy_fwd_get 1024 2048 4096 m1 (Or.inl (by norm_num)) i h]
      exact h1c i (by omega)
    · rw [copy_fwd_frame 1024 2048 4096 m1 (2048 + i) (Or.inr (by omega))]
      exact h1f (2048 + i) (by omega)
  have h2c : ∀ i, i < 2048 → m2 (4096 + i) = m (2048 + i) := by
    intro i hi
    rw [hm2, copy_fwd_frame 1024 2048 4096 m1 (4096 + i) (Or.inr (by omega))]
    exact h1c i hi
  have h3f : ∀ x, x < 4096 → m3 x = m2 x := fun x hx =>
    copy_fwd_frame 1984 4096 4160 m2 x (Or.inl hx)
  have h3c1 : ∀ i, i < 1984 → m3 (4096 + i) = m (2112 + i) := by
    intro i hi
    rw [hm3, copy_fwd_get 1984 4096 4160 m2 (Or.inl (by norm_num)) i hi]
    have e : (4160 : ℕ) + i = 4096 + (64 + i) := by omega
    rw [e, h2c (64 + i) (by omega)]
    exact congrArg m (by omega)
  have h4a : ∀ i, i < 2048 → m4 i = m (2048 + i) := by
    intro i hi
    have h := copy_fwd_get 2048 0 2048 m3 (Or.inl (by norm_num)) i hi
    rw [Nat.zero_add] at h
    rw [hm4, h, h3f (2048 + i) (by omega), h2b i hi]
  have h4f : ∀ x, 2048 ≤ x → m4 x = m3 x := fun x hx =>
    copy_fwd_frame 2048 0 2048 m3 x (Or.inr (by omega))
  have h5f : ∀ x, x < 4160 → m5 x = m4 x := fun x hx =>
    copy_bwd_frame 1984 4160 4096 m4 x (Or.inl hx)
  have h5c : ∀ i, 64 ≤ i → i < 2048 → m5 (4096 + i) = m (2048 + i) := by
    intro i h64 hi
    have e : (4096 : ℕ) + i = 4160 + (i - 64) := by omega
    rw [e, hm5, copy_bwd_get 1984 4160 4096 m4 (by norm_num) (i - 64) (by omega)]
    rw [h4f (4096 + (i - 64)) (by omega), h3c1 (i - 64) (by omega)]
    exact congrArg m (by omega)
  have h6c : ∀ i, i < 2048 → m6 (4096 + i) = m (2048 + i) := by
    intro i hi
    rw [hm6, copy_fwd_get 2048 4096 0 m5 (Or.inr (by norm_num)) i hi, Nat.zero_add]
    rw [h5f i (by omega), h4a i hi]
  have h6f : ∀ x, x < 4096 → m6 x = m5 x := fun x hx =>
    copy_fwd_frame 2048 4096 0 m5 x (Or.inl hx)
  have h7c : ∀ j, j < 2047 → m7 (4097 + j) = m (2048 + j) := by
    intro j hj
    rw [hm7, copy_bwd_get 2047 4097 4096 m6 (by norm_num) j hj]
    exact h6c j (by omega)
  have h7f : ∀ x, x < 4097 → m7 x = m6 x := fun x hx =>
    copy_bwd_frame 2047 4097 4096 m6 x (Or.inl hx)
  have h8c : ∀ i, i < 2047 → copy_fwd 4096 4097 2047 m7 (4096 + i) = m (2048 + i) := by
    intro i hi
    rw [copy_fwd_get 2047 4096 4097 m7 (Or.inl (by norm_num)) i hi]
    exact h7c i hi
  have h8f : ∀ x, x < 4096 → copy_fwd 4096 4097 2047 m7 x = m7 x := fun x hx =>
    copy_fwd_frame 2047 4096 4097 m7 x (Or.inl hx)
  refine ⟨?_, ?_, ?_, ?_⟩
  · intro i hi
    rw [h8f i (by omega), h7f i (by omega), h6f i (by omega), h5f i (by omega), h4a i hi]
  · intro i hi
    rw [h8f (2048 + i) (by omega), h7f (2048 + i) (by omega), h6f (2048 + i) (by omega),
      h5f (2048 + i) (by omega), h4f (2048 + i) (by omega), h3f (2048 + i) (by omega),
      h2b i hi]
  · intro i hi
    exact h8c i hi
  · rw [copy_fwd_frame 2047 4096 4097 m7 6143 (Or.inr (by norm_num))]
    have h := h7c 2046 (by norm_num)
    norm_num at h
    exact h

lemma stress_memcpy_naive_iter_b (m : Mem) : ∀ (k i : ℕ), i < 2048 →
    (memcpy_pattern_step test_naive_memcpy test_naive_memmove)^[k] m (2048 + i) =
      m (2048 + i) := by
  intro k
  induction k with
  | zero => intro i _; rfl
  | succ k ih =>
    intro i hi
    rw [Function.iterate_succ_apply']
    rw [(naive_pattern_step_spec
      ((memcpy_pattern_step test_naive_memcpy test_naive_memmove)^[k] m)).2.1 i hi]
    exact ih i hi

lemma stress_memcpy_naive_spec (m : Mem) :
    (∀ i, i < 2048 → stress_memcpy_naive m i = m (2048 + i)) ∧
    (∀ i, i < 2047 → stress_memcpy_naive m (4096 + i) = m (2048 + i)) ∧
    stress_memcpy_naive m 6143 = m 4094 := by
  have hstep : stress_memcpy_naive m =
      memcpy_pattern_step test_naive_memcpy test_naive_memmove
        ((memcpy_pattern_step test_naive_memcpy test_naive_memmove)^[1023] m) := by
    rw [stress_memcpy_naive, MEMCPY_LOOPS,
      show (1024 : ℕ) = 1023 + 1 from rfl, Function.iterate_succ_apply']
  have hb := stress_memcpy_naive_iter_b m 1023
  have hspec := naive_pattern_step_spec
    ((memcpy_pattern_step test_naive_memcpy test_naive_memmove)^[1023] m)
  refine ⟨?_, ?_, ?_⟩
  · intro i hi
    rw [hstep, hspec.1 i hi]
    exact hb i hi
  · intro i hi
    rw [hstep, hspec.2.2.1 i hi]
    exact hb i (by omega)
  · rw [hstep, hspec.2.2.2]
    have h := hb 2046 (by norm_num)
    have e : (2048 : ℕ) + 2046 = 4094 := by norm_num
    rw [e] at h
    exact h

/-- C1 counterexample: with initial memory `m j = j`, after one
invocation of the naive method the last byte of `str3` (address
`2 * MEMCPY_MEMSIZE + 2047 = 6143`) differs from the last byte of `str1`
(address `2047`): the closing pair of overlapping moves in each loop
iteration duplicates byte `N - 2` of `str3` into byte `N - 1`, so `str3`
ends with `str1[N-2]`, not `str1[N-1]`. -/
theorem stress_memcpy_naive_str3_ne_str1 :
    stress_memcpy_naive (fun j => j) 6143 ≠ stress_memcpy_naive (fun j => j) 2047 := by
  have h3 := (stress_memcpy_naive_spec (fun j => j)).2.2
  have h1 := (stress_memcpy_naive_spec (fun j => j)).1 2047 (by norm_num)
  rw [h3, h1]
  norm_num

/-- C1 amended: after one invocation of the naive method starting from
arbitrary buffer contents, `str3` equals `str1` on every byte index in
`[0, N - 1)`; at index `N - 1` the final `str3` holds the byte that
`str1` holds at index `N - 2`. -/
theorem stress_memcpy_naive_str3_eq_str1 :
    ∀ (m : Mem),
      (∀ i, i < MEMCPY_MEMSIZE - 1 →
        stress_memcpy_naive m (2 * MEMCPY_MEMSIZE + i) = stress_memcpy_naive m i) ∧
      stress_memcpy_naive m (2 * MEMCPY_MEMSIZE + (MEMCPY_MEMSIZE - 1)) =
        stress_memcpy_naive m (MEMCPY_MEMSIZE - 2) := by
  intro m
  have hs := stress_memcpy_naive_spec m
  constructor
  · intro i hi
    rw [MEMCPY_MEMSIZE] at hi ⊢
    norm_num
    rw [hs.2.1 i (by omega), hs.1 i (by omega)]
  · rw [MEMCPY_MEMSIZE]
    norm_num
    rw [hs.2.2, hs.1 2046 (by norm_num)]

/-- Concrete instance of the amended C1 statement at byte index 0. -/
theorem stress_memcpy_naive_str3_eq_str1_witness :
    0 < MEMCPY_MEMSIZE - 1 ∧
    stress_memcpy_naive (fun j => j) (2 * MEMCPY_MEMSIZE + 0) =
      stress_memcpy_naive (fun j => j) 0 :=
  ⟨by norm_num [MEMCPY_MEMSIZE],
   (stress_memcpy_naive_str3_eq_str1 (fun j => j)).1 0 (by norm_num [MEMCPY_MEMSIZE])⟩

lemma fallback_pattern_step_eq (m : Mem) :
    stress_memcpy_builtin_fallback_step 6144 m =
      copy_fwd 4096 4097 2047
        (copy_bwd 4097 4096 2047
          (copy_fwd 6144 0 2048
            (copy_bwd 4160 4096 1984
              (copy_fwd 0 6144 2048
                (copy_fwd 4096 4160 1984
                  (copy_fwd 2048 4096 1024
                    (copy_fwd 4096 2048 2048 m))))))) := by
  have c1 : str3 < str3 + 64 := by omega
  have c2 : ¬(str3 + 64 < str3) := by omega
  have c3 : ¬(str3 + 1 < str3) := by omega
  have c4 : str3 < str3 + 1 := by omega
  unfold stress_memcpy_builtin_fallback_step
  dsimp only [libc_memcpy, libc_memmove]
  rw [if_pos c1, if_neg c2, if_neg c3, if_pos c4]
  norm_num [str1, str2, str3, MEMCPY_MEMSIZE]

lemma fallback_pattern_step_spec (m : Mem) :
    (∀ i, i < 2048 → stress_memcpy_builtin_fallback_step 6144 m i = m (6144 + i)) ∧
    (∀ i, i < 2048 →
      stress_memcpy_builtin_fallback_step 6144 m (6144 + i) = m (6144 + i)) := by
  rw [fallback_pattern_step_eq m]
  set m1 := copy_fwd 4096 2048 2048 m with hm1
  set m2 := copy_fwd 2048 4096 1024 m1 with hm2
  set m3 := copy_fwd 4096 4160 1984 m2 with hm3
  set m4 := copy_fwd 0 6144 2048 m3 with hm4
  set m5 := copy_bwd 4160 4096 1984 m4 with hm5
  set m6 := copy_fwd 6144 0 2048 m5 with hm6
  set m7 := copy_bwd 4097 4096 2047 m6 with hm7
  have h4a : ∀ i, i < 2048 → m4 i = m (6144 + i) := by
    intro i hi
    have h := copy_fwd_get 2048 0 6144 m3 (Or.inl (by norm_num)) i hi
    rw [Nat.zero_add] at h
    rw [hm4, h, hm3, copy_fwd_frame 1984 4096 4160 m2 (6144 + i) (Or.inr (by omega)),
      hm2, copy_fwd_frame 1024 2048 4096 m1 (6144 + i) (Or.inr (by omega)), hm1]
    exact copy_fwd_frame 2048 4096 2048 m (6144 + i) (Or.inr (by omega))
  have h5a : ∀ i, i < 2048 → m5 i = m (6144 + i) := by
    intro i hi
    rw [hm5, copy_bwd_frame 1984 4160 4096 m4 i (Or.inl (by omega)), h4a i hi]
  have h6b : ∀ i, i < 2048 → m6 (6144 + i) = m (6144 + i) := by
    intro i hi
    rw [hm6, copy_fwd_get 2048 6144 0 m5 (Or.inr (by norm_num)) i hi, Nat.zero_add]
    exact h5a i hi
  have h6a : ∀ i, i < 2048 → m6 i = m (6144 + i) := by
    intro i hi
    rw [hm6, copy_fwd_frame 2048 6144 0 m5 i (Or.inl (by omega))]
    exact h5a i hi
  have h7a : ∀ x, x < 4097 → m7 x = m6 x := by
    intro x hx
    rw [hm7, copy_bwd_frame 2047 4097 4096 m6 x (Or.inl hx)]
  have h7b : ∀ x, 6144 ≤ x → m7 x = m6 x := by
    intro x hx
    rw [hm7, copy_bwd_frame 2047 4097 4096 m6 x (Or.inr (by omega))]
  constructor
  · intro i hi
    rw [copy_fwd_frame 2047 4096 4097 m7 i (Or.inl (by omega)), h7a i (by omega),
      h6a i hi]
  · intro i hi
    rw [copy_fwd_frame 2047 4096 4097 m7 (6144 + i) (Or.inr (by omega)),
      h7b (6144 + i) (by omega), h6b i hi]

lemma fallback_iter_b (m : Mem) : ∀ (k i : ℕ), i < 2048 →
    (stress_memcpy_builtin_fallback_step 6144)^[k] m (6144 + i) = m (6144 + i) := by
  intro k
  induction k with
  | zero => intro i _; rfl
  | succ k ih =>
    intro i hi
    rw [Function.iterate_succ_apply']
    rw [(fallback_pattern_step_spec
      ((stress_memcpy_builtin_fallback_step 6144)^[k] m)).2 i hi]
    exact ih i hi

lemma stress_memcpy_builtin_fallback_spec (m : Mem) :
    ∀ i, i < 2048 → stress_memcpy_builtin_fallback 6144 m i = m (6144 + i) := by
  intro i hi
  have hstep : stress_memcpy_builtin_fallback 6144 m =
      stress_memcpy_builtin_fallback_step 6144
        ((stress_memcpy_builtin_fallback_step 6144)^[1023] m) := by
    rw [stress_memcpy_builtin_fallback, MEMCPY_LOOPS,
      show (1024 : ℕ) = 1023 + 1 from rfl, Function.iterate_succ_apply']
  rw [hstep, (fallback_pattern_step_spec _).1 i hi]
  exact fallback_iter_b m 1023 i hi

lemma stress_memcpy_libc_eq_naive : stress_memcpy_libc = stress_memcpy_naive := rfl

/-- C9 evidence: the libc fallback branch of `stress_memcpy_builtin`, as
written in the source with the undeclared identifier `b` (modelled here
as a buffer at offset 6144, disjoint from the three working buffers), is
not behaviourally equivalent to the libc method: with initial memory
`m j = j`, byte 0 of `str1` ends as 6144 under the fallback (copied from
`b`) but as 2048 under the libc method (copied from `str2`). -/
theorem stress_memcpy_builtin_fallback_ne_libc :
    stress_memcpy_builtin_fallback 6144 (fun j => j) 0 = 6144 ∧
    stress_memcpy_libc (fun j => j) 0 = 2048 ∧
    stress_memcpy_builtin_fallback 6144 (fun j => j) 0 ≠
      stress_memcpy_libc (fun j => j) 0 := by
  have hf := stress_memcpy_builtin_fallback_spec (fun j => j) 0 (by norm_num)
  have hl := (stress_memcpy_naive_spec (fun j => j)).1 0 (by norm_num)
  rw [← stress_memcpy_libc_eq_naive] at hl
  refine ⟨by rw [hf], by rw [hl], ?_⟩
  rw [hf, hl]
  norm_num

lemma digitChar_toNat : ∀ d, d < 10 → (Char.ofNat (48 + d)).toNat = 48 + d := by
  intro d hd
  interval_cases d <;> decide

lemma isDigitChar_iff (c : Char) : isDigitChar c = true ↔ 48 ≤ c.toNat ∧ c.toNat ≤ 57 := by
  simp [isDigitChar]

lemma natToDecAux_digits : ∀ (fuel n : ℕ), n < fuel →
    ∀ c ∈ natToDecAux fuel n, isDigitChar c = true := by
  intro fuel
  induction fuel with
  | zero => intro n hn; omega
  | succ fuel ih =>
    intro n hn c hc
    rw [natToDecAux] at hc
    by_cases h : n < 10
    · rw [if_pos h] at hc
      simp only [List.mem_singleton] at hc
      subst hc
      rw [isDigitChar_iff, digitChar_toNat n h]
      omega
    · rw [if_neg h] at hc
      rcases List.mem_append.mp hc with h1 | h2
      · exact ih (n / 10) (by omega) c h1
      · simp only [List.mem_singleton] at h2
        subst h2
        rw [isDigitChar_iff, digitChar_toNat (n % 10) (by omega)]
        omega

lemma natToDecAux_ne_nil : ∀ (fuel n : ℕ), n < fuel → natToDecAux fuel n ≠ [] := by
  intro fuel
  induction fuel with
  | zero => intro n hn; omega
  | succ fuel _ =>
    intro n hn
    rw [natToDecAux]
    by_cases h : n < 10
    · rw [if_pos h]; simp
    · rw [if_neg h]; simp

lemma digitsVal_append_digit (ds : List Char) (c : Char) :
    digitsVal (ds ++ [c]) = 10 * digitsVal ds + (c.toNat - 48) := by
  simp [digitsVal, List.foldl_append]

lemma natToDecAux_val : ∀ (fuel n : ℕ), n < fuel → digitsVal (natToDecAux fuel n) = n := by
  intro fuel
  induction fuel with
  | zero => intro n hn; omega
  | succ fuel ih =>
    intro n hn
    rw [natToDecAux]
    by_cases h : n < 10
    · rw [if_pos h]
      simp [digitsVal, digitChar_toNat n h]
    · rw [if_neg h]
      rw [digitsVal_append_digit, ih (n / 10) (by omega), digitChar_toNat (n % 10) (by omega)]
      omega

lemma natToDec_digits (n : ℕ) : ∀ c ∈ natToDec n, isDigitChar c = true :=
  natToDecAux_digits (n + 1) n (by omega)

lemma natToDec_ne_nil (n : ℕ) : natToDec n ≠ [] :=
  natToDecAux_ne_nil (n + 1) n (by omega)

lemma natToDec_val (n : ℕ) : digitsVal (natToDec n) = n :=
  natToDecAux_val (n + 1) n (by omega)

lemma isDigitChar_ne_dash {c : Char} (h : isDigitChar c = true) : c ≠ '-' := by
  intro he
  rw [he] at h
  exact absurd h (by decide)

lemma isDigitChar_ne_comma {c : Char} (h : isDigitChar c = true) : c ≠ ',' := by
  intro he
  rw [he] at h
  exact absurd h (by decide)

lemma takeWhile_append_all (p : Char → Bool) :
    ∀ (A B : List Char), (∀ c ∈ A, p c = true) →
      (∀ c, B.head? = some c → p c = false) →
      (A ++ B).takeWhile p = A := by
  intro A
  induction A with
  | nil =>
    intro B _ hB
    cases B with
    | nil => rfl
    | cons c r =>
      rw [List.nil_append, List.takeWhile_cons_of_neg (by simp [hB c rfl])]
  | cons a A ih =>
    intro B hA hB
    rw [List.cons_append, List.takeWhile_cons_of_pos (by simp [hA a (by simp)]),
      ih B (fun c hc => hA c (by simp [hc])) hB]

lemma sscanf_d_digits :
    ∀ (A B : List Char), A ≠ [] → (∀ c ∈ A, isDigitChar c = true) →
      (∀ c, B.head? = some c → isDigitChar c = false) →
      sscanf_d (A ++ B) = some ((digitsVal A : ℕ) : ℤ) := by
  intro A B hne hA hB
  cases A with
  | nil => exact absurd rfl hne
  | cons a A' =>
    have hdb := (isDigitChar_iff a).mp (hA a (by simp))
    have hsp : isCSpace a = false := by
      simp only [isCSpace]
      simp only [Bool.or_eq_false_iff, decide_eq_false_iff_not]
      omega
    have hne45 : a ≠ '-' := by
      intro h
      rw [h, show ('-').toNat = 45 from by decide] at hdb
      omega
    have hne43 : a ≠ '+' := by
      intro h
      rw [h, show ('+').toNat = 43 from by decide] at hdb
      omega
    rw [sscanf_d, List.cons_append, List.dropWhile_cons_of_neg (by simp [hsp]),
      sscanf_sign, if_neg hne45, if_neg hne43]
    rw [show (a :: (A' ++ B)) = (a :: A') ++ B from rfl]
    rw [sscanf_digits]
    rw [takeWhile_append_all isDigitChar (a :: A') B hA hB]
    have hemp : (a :: A').isEmpty = false := rfl
    rw [hemp]
    simp

lemma dashSuffix_none : ∀ (A : List Char), (∀ c ∈ A, c ≠ '-') → dashSuffix A = none := by
  intro A
  induction A with
  | nil => intro _; rfl
  | cons a A ih =>
    intro h
    rw [dashSuffix, if_neg (h a (by simp))]
    exact ih (fun c hc => h c (by simp [hc]))

lemma dashSuffix_append : ∀ (A B : List Char), (∀ c ∈ A, c ≠ '-') →
    dashSuffix (A ++ '-' :: B) = some B := by
  intro A
  induction A with
  | nil =>
    intro B _
    rw [List.nil_append, dashSuffix, if_pos rfl]
  | cons a A ih =>
    intro B h
    rw [List.cons_append, dashSuffix, if_neg (h a (by simp))]
    exact ih B (fun c hc => h c (by simp [hc]))

lemma splitOnComma_cons (c : Char) (s : List Char) :
    splitOnComma (c :: s) =
      if c = ',' then [] :: splitOnComma s
      else
        match splitOnComma s with
        | [] => [[c]]
        | t :: ts => (c :: t) :: ts := rfl

lemma splitOnComma_no_comma : ∀ (A : List Char), (∀ c ∈ A, c ≠ ',') →
    splitOnComma A = [A] := by
  intro A
  induction A with
  | nil => intro _; rfl
  | cons a A ih =>
    intro h
    rw [splitOnComma_cons, if_neg (h a (by simp)), ih (fun c hc => h c (by simp [hc]))]

lemma splitOnComma_append : ∀ (A B : List Char), (∀ c ∈ A, c ≠ ',') →
    splitOnComma (A ++ ',' :: B) = A :: splitOnComma B := by
  intro A
  induction A with
  | nil =>
    intro B _
    rw [List.nil_append, splitOnComma_cons, if_pos rfl]
  | cons a A ih =>
    intro B h
    rw [List.cons_append, splitOnComma_cons, if_neg (h a (by simp)),
      ih B (fun c hc => h c (by simp [hc]))]

lemma itemChars_ne_nil : ∀ it : CpuItem, itemChars it ≠ [] := by
  intro it
  cases it with
  | single n => exact natToDec_ne_nil n
  | range lo hi =>
    rw [itemChars]
    simp [natToDec_ne_nil lo]

lemma itemChars_no_comma : ∀ (it : CpuItem) (c : Char), c ∈ itemChars it → c ≠ ',' := by
  intro it c hc
  cases it with
  | single n => exact isDigitChar_ne_comma (natToDec_digits n c hc)
  | range lo hi =>
    rw [itemChars] at hc
    rcases List.mem_append.mp hc with h1 | h2
    · exact isDigitChar_ne_comma (natToDec_digits lo c h1)
    · rcases List.mem_cons.mp h2 with rfl | h3
      · decide
      · exact isDigitChar_ne_comma (natToDec_digits hi c h3)

lemma strtokSplit_listChars : ∀ (items : List CpuItem), items ≠ [] →
    strtokSplit (listChars items) = items.map itemChars := by
  intro items
  induction items with
  | nil => intro h; exact absurd rfl h
  | cons it rest ih =>
    intro _
    have hne : (itemChars it).isEmpty = false := by
      cases h : itemChars it with
      | nil => exact absurd h (itemChars_ne_nil it)
      | cons a l => rfl
    cases rest with
    | nil =>
      rw [show listChars [it] = itemChars it from rfl, strtokSplit,
        splitOnComma_no_comma (itemChars it) (itemChars_no_comma it)]
      rw [List.filter_cons, hne]
      rfl
    | cons it2 rest2 =>
      rw [show listChars (it :: it2 :: rest2) =
            itemChars it ++ ',' :: listChars (it2 :: rest2) from rfl,
        strtokSplit, splitOnComma_append _ _ (itemChars_no_comma it)]
      rw [List.filter_cons, hne]
      show itemChars it :: strtokSplit (listChars (it2 :: rest2)) = _
      rw [ih (by simp)]
      rfl

lemma stress_parse_cpu_natToDec (n : ℕ) (B : List Char)
    (hB : ∀ c, B.head? = some c → isDigitChar c = false) :
    stress_parse_cpu (natToDec n ++ B) = some (n : ℤ) := by
  rw [stress_parse_cpu,
    sscanf_d_digits (natToDec n) B (natToDec_ne_nil n) (natToDec_digits n) hB,
    natToDec_val]

lemma parseToken_single (n : ℕ) : parseToken (natToDec n) = some ((n : ℤ), (n : ℤ)) := by
  have h1 : stress_parse_cpu (natToDec n) = some (n : ℤ) := by
    have h := stress_parse_cpu_natToDec n [] (by intro c hc; simp at hc)
    simpa using h
  have h2 : dashSuffix (natToDec n) = none :=
    dashSuffix_none _ (fun c hc => isDigitChar_ne_dash (natToDec_digits n c hc))
  simp only [parseToken, h1, h2]

lemma parseToken_range (lo hi : ℕ) (h : lo ≤ hi) :
    parseToken (natToDec lo ++ '-' :: natToDec hi) = some ((lo : ℤ), (hi : ℤ)) := by
  have h1 : stress_parse_cpu (natToDec lo ++ '-' :: natToDec hi) = some (lo : ℤ) :=
    stress_parse_cpu_natToDec lo ('-' :: natToDec hi)
      (by intro c hc; simp at hc; subst hc; decide)
  have h2 : dashSuffix (natToDec lo ++ '-' :: natToDec hi) = some (natToDec hi) :=
    dashSuffix_append _ _ (fun c hc => isDigitChar_ne_dash (natToDec_digits lo c hc))
  have h3 : stress_parse_cpu (natToDec hi) = some (hi : ℤ) := by
    have hh := stress_parse_cpu_natToDec hi [] (by intro c hc; simp at hc)
    simpa using hh
  have h4 : (natToDec hi).isEmpty = false := by
    cases hh : natToDec hi with
    | nil => exact absurd hh (natToDec_ne_nil hi)
    | cons a l => rfl
  simp only [parseToken, h1, h2, h3, h4]
  rw [if_neg (by simp), if_neg (by omega)]

lemma stress_check_range_true {max_cpus cpu : ℤ} (h0 : 0 ≤ cpu) (hlt : cpu < max_cpus) :
    stress_check_cpu_affinity_range max_cpus cpu = true := by
  simp [stress_check_cpu_affinity_range, h0, hlt]

lemma cpuSetRange_eq_Icc (lo hi : ℤ) : cpuSetRange lo hi = Finset.Icc lo hi := by
  ext x
  simp only [cpuSetRange, List.mem_toFinset, List.mem_map, List.mem_range, Finset.mem_Icc]
  constructor
  · rintro ⟨k, hk, rfl⟩
    omega
  · intro hx
    exact ⟨(x - lo).toNat, by omega, by omega⟩

lemma affinityLoop_items (max_cpus : ℤ) : ∀ (items : List CpuItem) (s : Finset ℤ),
    (∀ it ∈ items, itemOK max_cpus it) →
    affinityLoop max_cpus (items.map itemChars) s = some (s ∪ itemsUnion items) := by
  intro items
  induction items with
  | nil =>
    intro s _
    simp [affinityLoop, itemsUnion]
  | cons it rest ih =>
    intro s hOK
    have hit := hOK it (by simp)
    cases it with
    | single n =>
      have hn : (n : ℤ) < max_cpus := hit
      have hc : stress_check_cpu_affinity_range max_cpus (n : ℤ) = true :=
        stress_check_range_true (Int.natCast_nonneg n) hn
      simp only [List.map_cons, affinityLoop, itemChars, parseToken_single n]
      rw [if_pos (by rw [hc]; rfl)]
      rw [ih _ (fun x hx => hOK x (by simp [hx]))]
      rw [cpuSetRange_eq_Icc, Finset.Icc_self]
      simp [itemsUnion, itemSet, Finset.union_assoc]
    | range lo hi =>
      obtain ⟨hlh, hhi⟩ := hit
      have hclo : stress_check_cpu_affinity_range max_cpus (lo : ℤ) = true :=
        stress_check_range_true (Int.natCast_nonneg lo) (by omega)
      have hchi : stress_check_cpu_affinity_range max_cpus (hi : ℤ) = true :=
        stress_check_range_true (Int.natCast_nonneg hi) hhi
      simp only [List.map_cons, affinityLoop, itemChars, parseToken_range lo hi hlh]
      rw [if_pos (by rw [hclo, hchi]; rfl)]
      rw [ih _ (fun x hx => hOK x (by simp [hx]))]
      rw [cpuSetRange_eq_Icc]
      simp [itemsUnion, itemSet, Finset.union_assoc]

lemma mem_itemsUnion : ∀ (items : List CpuItem) (x : ℤ),
    x ∈ itemsUnion items ↔ ∃ it ∈ items, x ∈ itemSet it := by
  intro items x
  induction items with
  | nil => simp [itemsUnion]
  | cons it rest ih =>
    simp only [itemsUnion, List.foldr_cons, Finset.mem_union] at ih ⊢
    rw [ih]
    simp [List.mem_cons, or_and_right, exists_or]

/-- C2: for every input conforming to the §4.1 grammar whose CPU indices
lie in `[0, max_cpus)` (ranges ordered), the parse loop completes and the
resulting mask is exactly the set-theoretic union of the items; in
particular (claim example) parsing `"2,2,3-5,4"` with `max_cpus = 8`
yields `{2, 3, 4, 5}`, duplicates and overlaps being harmless. -/
theorem stress_set_cpu_affinity_union :
    (∀ (items : List CpuItem) (max_cpus : ℤ), items ≠ [] →
      (∀ it ∈ items, itemOK max_cpus it) →
      ∃ S : Finset ℤ, stress_set_cpu_affinity max_cpus (listChars items) = some S ∧
        ∀ x : ℤ, x ∈ S ↔ ∃ it ∈ items, x ∈ itemSet it) ∧
    stress_set_cpu_affinity 8 ("2,2,3-5,4".toList) = some ({2, 3, 4, 5} : Finset ℤ) := by
  constructor
  · intro items max_cpus hne hOK
    refine ⟨itemsUnion items, ?_, fun x => mem_itemsUnion items x⟩
    rw [stress_set_cpu_affinity, strtokSplit_listChars items hne,
      affinityLoop_items max_cpus items ∅ hOK, Finset.empty_union]
  · have h : stress_set_cpu_affinity 8 ("2,2,3-5,4".toList) =
        some ({2, 3, 5, 4} : Finset ℤ) := by decide
    rw [h]
    congr 1
    ext x
    simp only [Finset.mem_insert, Finset.mem_singleton]
    tauto

/-- Instance of the C2 union theorem at the items of `"2,2,3-5,4"` with
`max_cpus = 8`. -/
theorem stress_set_cpu_affinity_union_witness :
    ∃ S : Finset ℤ,
      stress_set_cpu_affinity 8
        (listChars [CpuItem.single 2, CpuItem.single 2, CpuItem.range 3 5,
          CpuItem.single 4]) = some S ∧
      ∀ x : ℤ, x ∈ S ↔
        ∃ it ∈ [CpuItem.single 2, CpuItem.single 2, CpuItem.range 3 5,
          CpuItem.single 4], x ∈ itemSet it :=
  stress_set_cpu_affinity_union.1
    [CpuItem.single 2, CpuItem.single 2, CpuItem.range 3 5, CpuItem.single 4] 8
    (by decide) (by decide)

/-- C6 counterexample: the input `"1,,2"` with an empty token between
commas is not rejected: the bind operation reaches the kernel call with
the mask `{1, 2}` (the `strtok` tokenizer silently drops empty
fields). -/
theorem stress_set_cpu_affinity_empty_token_accepted :
    stress_set_cpu_affinity 8 ("1,,2".toList) = some ({1, 2} : Finset ℤ) ∧
    stress_set_cpu_affinity 8 ("1,,2".toList) ≠ none := by
  constructor
  · decide
  · decide

/-- C6 amended: `strtok` never yields an empty token, so empty fields
between commas are silently skipped rather than rejected: `"1,,2"`
parses exactly like `"1,2"`, and the all-empty inputs `""` and `","`
complete the parse loop with the empty mask (which then fails only at
the `sched_setaffinity` kernel call). -/
theorem stress_set_cpu_affinity_empty_token_skipped :
    (∀ (s tok : List Char), tok ∈ strtokSplit s → tok ≠ []) ∧
    stress_set_cpu_affinity 8 ("1,,2".toList) = stress_set_cpu_affinity 8 ("1,2".toList) ∧
    stress_set_cpu_affinity 8 ("".toList) = some (∅ : Finset ℤ) ∧
    stress_set_cpu_affinity 8 (",".toList) = some (∅ : Finset ℤ) := by
  refine ⟨?_, by decide, by decide, by decide⟩
  intro s tok h he
  subst he
  rw [strtokSplit] at h
  have hp := (List.mem_filter.mp h).2
  simp at hp

/-- Instance of the no-empty-token fact for the input `"1,,2"`. -/
theorem stress_set_cpu_affinity_empty_token_skipped_witness :
    ("1".toList : List Char) ≠ [] :=
  stress_set_cpu_affinity_empty_token_skipped.1 ("1,,2".toList) ("1".toList) (by decide)

lemma affinityLoop_token_none (max_cpus : ℤ) :
    ∀ (toks : List (List Char)) (s : Finset ℤ) (tok : List Char),
      tok ∈ toks → stress_parse_cpu tok = none → affinityLoop max_cpus toks s = none := by
  intro toks
  induction toks with
  | nil => intro s tok h _; simp at h
  | cons t rest ih =>
    intro s tok h hparse
    rcases List.mem_cons.mp h with rfl | hmem
    · simp only [affinityLoop, parseToken, hparse]
    · cases hpt : parseToken t with
      | none => simp only [affinityLoop, hpt]
      | some p =>
        obtain ⟨lo, hi⟩ := p
        simp only [affinityLoop, hpt]
        by_cases hcnd : (stress_check_cpu_affinity_range max_cpus lo &&
            stress_check_cpu_affinity_range max_cpus hi) = true
        · rw [if_pos hcnd]
          exact ih _ tok hmem hparse
        · rw [if_neg hcnd]

/-- C7 amended: a token on which the `sscanf` `%d` conversion fails (no
digits after optional white space and sign, e.g. `"a"`) aborts the bind
operation; but `sscanf` ignores trailing characters after a valid
integer, so a numeric token with trailing white space such as `"3 "` is
accepted as that integer rather than rejected. -/
theorem stress_parse_cpu_reject :
    (∀ (max_cpus : ℤ) (arg tok : List Char), tok ∈ strtokSplit arg →
      stress_parse_cpu tok = none → stress_set_cpu_affinity max_cpus arg = none) ∧
    stress_parse_cpu ("a".toList) = none ∧
    stress_set_cpu_affinity 8 ("a".toList) = none ∧
    stress_parse_cpu ("3 ".toList) = some 3 ∧
    stress_set_cpu_affinity 8 ("3 ".toList) = some ({3} : Finset ℤ) := by
  refine ⟨?_, by decide, by decide, by decide, by decide⟩
  intro max_cpus arg tok hmem hparse
  rw [stress_set_cpu_affinity]
  exact affinityLoop_token_none max_cpus (strtokSplit arg) ∅ tok hmem hparse

/-- Instance of the amended C7 statement: the non-numeric token `"a"`
aborts the bind operation. -/
theorem stress_parse_cpu_reject_witness :
    stress_set_cpu_affinity 8 ("a".toList) = none :=
  stress_parse_cpu_reject.1 8 ("a".toList) ("a".toList) (by decide) (by decide)

/-- C7 counterexample: the token `"3 "` (digit followed by white space)
is not rejected: the bind operation installs the mask `{3}`. -/
theorem stress_parse_cpu_whitespace_accepted :
    stress_parse_cpu ("3 ".toList) = some 3 ∧
    stress_set_cpu_affinity 8 ("3 ".toList) = some ({3} : Finset ℤ) ∧
    stress_set_cpu_affinity 8 ("3 ".toList) ≠ none := by
  refine ⟨by decide, by decide, by decide⟩
